import Mathlib

/-!
Verification of the Slurm backend adapter (`slurmy/backends/slurm.py`).

Python strings are modelled as `List Char`.  The Python string
operations used by the source (`str.split(sep)`, `str.rstrip(c)`,
`str.join`, substring containment via `in`, the builtin `int(...)`)
are given executable Lean counterparts below; each definition's
comment names the Python operation it embeds.

External processes (sbatch / scancel / sacct invocations) are modelled
by passing the captured textual output of the process as an explicit
argument.  Python exceptions (ValueError from tuple unpacking or
`int(...)`, KeyError from a dict lookup, IndexError from indexing)
are modelled by `Except Unit` / `Option` result types: `.error ()` /
`none` means the Python code raises an unhandled exception.
-/

set_option maxRecDepth 4000

/-- Python `s.split(c)` for a one-character separator `c`: splits at every
occurrence of `c`, keeping empty fields; the result is always nonempty. -/
def splitOnChar (c : Char) : List Char → List (List Char)
  | [] => [[]]
  | x :: xs =>
    if x = c then [] :: splitOnChar c xs
    else
      match splitOnChar c xs with
      | [] => [[x]]
      | y :: ys => (x :: y) :: ys

/-- Python `s.rstrip(c)` for a one-character argument: drops every trailing
occurrence of `c`. -/
def rstripChar (c : Char) (s : List Char) : List Char :=
  (s.reverse.dropWhile (fun x => x = c)).reverse

/-- The whitespace characters recognised by Python's `str.strip()` /
`str.split()` (ASCII part: space, tab, newline, carriage return,
vertical tab, form feed). -/
def isPySpace (c : Char) : Bool :=
  c = ' ' || c = '\t' || c = '\n' || c = '\r' || c = '\x0b' || c = '\x0c'

/-- Python `s.strip()`: drops leading and trailing whitespace. -/
def pyStrip (s : List Char) : List Char :=
  ((s.dropWhile isPySpace).reverse.dropWhile isPySpace).reverse

/-- Helper for `pySplitWs`: accumulates the current word (reversed) while
scanning. -/
def pySplitWsAux : List Char → List Char → List (List Char)
  | [], acc => if acc.isEmpty then [] else [acc.reverse]
  | c :: cs, acc =>
    if isPySpace c then
      if acc.isEmpty then pySplitWsAux cs []
      else acc.reverse :: pySplitWsAux cs []
    else pySplitWsAux cs (c :: acc)

/-- Python `s.split()` with no argument: splits on runs of whitespace and
returns no empty fields.  Used only for spec-side definitions that speak
of "whitespace-separated tokens". -/
def pySplitWs (s : List Char) : List (List Char) :=
  pySplitWsAux s []

/-- Decimal value of a list of digit characters. -/
def digitsToNat (d : List Char) : Nat :=
  d.foldl (fun a c => 10 * a + (c.toNat - 48)) 0

/-- Python `int(s)` on a string: strips surrounding whitespace, accepts an
optional sign followed by a nonempty run of ASCII digits, and raises
ValueError (here: `none`) otherwise.  (Underscore digit grouping and
non-ASCII digits, which real Python also accepts, are not modelled; no
input considered in this development uses them.) -/
def pyInt (s : List Char) : Option Int :=
  let t := pyStrip s
  if t = [] then none
  else if t.head? = some '+' then
    if t.tail ≠ [] ∧ t.tail.all Char.isDigit then some (digitsToNat t.tail : Int) else none
  else if t.head? = some '-' then
    if t.tail ≠ [] ∧ t.tail.all Char.isDigit then some (-(digitsToNat t.tail : Int)) else none
  else if t.all Char.isDigit then some (digitsToNat t : Int) else none

/-- Python substring containment `needle in hay` on strings: true when
`needle` occurs contiguously inside `hay`. -/
def pyInStr (needle : List Char) : List Char → Bool
  | [] => needle.isEmpty
  | x :: xs => needle.isPrefixOf (x :: xs) || pyInStr needle xs

/-- Python `' '.join(l)`: concatenates the pieces with a single space
between consecutive pieces. -/
def joinSpace : List (List Char) → List Char
  | [] => []
  | [x] => x
  | x :: y :: ys => x ++ ' ' :: joinSpace (y :: ys)

/-- Modelled from the spec: the job status enumeration (`tools/defs.py` is
not part of the sources; the spec gives the two values `Running` and
`Finished`). -/
inductive Status where
  | RUNNING : Status
  | FINISHED : Status
deriving DecidableEq

/-- The `run_args` attribute of a `Slurm` object: Python allows `None`, a
plain string, or a sequence of strings. -/
inductive RunArgs where
  | noArgs : RunArgs
  | str : List Char → RunArgs
  | seq : List (List Char) → RunArgs

/-- The mutable state of a `Slurm` backend object (`Slurm.__init__`).
Optional string attributes are `Option (List Char)`; `export` is a Lean
keyword, so that attribute is named `export_` here. -/
structure Slurm where
  name : Option (List Char)
  log : Option (List Char)
  run_script : Option (List Char)
  run_args : RunArgs
  partition : Option (List Char)
  clusters : Option (List Char)
  qos : Option (List Char)
  exclude : Option (List Char)
  mem : Option (List Char)
  time : Option (List Char)
  export_ : Option (List Char)
  _job_id : Option Int
  _exitcode : Option (List Char)

/-- `Slurm.__init__`: stores the construction arguments and initialises the
internal variables `_job_id` and `_exitcode` to `None`. -/
def initSlurm (name log run_script : Option (List Char)) (run_args : RunArgs)
    (partition exclude clusters qos mem time export_ : Option (List Char)) : Slurm :=
  { name := name, log := log, run_script := run_script, run_args := run_args,
    partition := partition, clusters := clusters, qos := qos, exclude := exclude,
    mem := mem, time := time, export_ := export_,
    _job_id := none, _exitcode := none }

/-- `Slurm._run_states = set(['PENDING', 'RUNNING'])`, modelled as a list
with the same membership. -/
def run_states : List (List Char) := ["PENDING".data, "RUNNING".data]

/-- Python truthiness of an optional string attribute (`if self.name:`):
true exactly for a present, nonempty string. -/
def truthy : Option (List Char) → Bool
  | none => false
  | some s => !s.isEmpty

/-- The job-id parsing step of `Slurm.submit`:
`int(submit_string.split(' ')[3].rstrip('\n'))`.  `none` models an
unhandled IndexError (fewer than 4 space-separated fields) or ValueError
(the field is not an integer literal). -/
def parseSubmitOutput (s : List Char) : Option Int :=
  match (splitOnChar ' ' s).get? 3 with
  | none => none
  | some t => pyInt (rstripChar '\n' t)

/-- `Slurm.submit`, given the captured stdout of the `sbatch` process:
parses the job id, stores it in `_job_id` and returns it.  `none` models
an unhandled exception during parsing. -/
def Slurm.submit (self : Slurm) (output : List Char) : Option (Int × Slurm) :=
  match parseSubmitOutput output with
  | none => none
  | some id => some (id, { self with _job_id := some id })

/-- Python `'{}'.format(x)` for an `Option Int` attribute: `None` prints as
the literal text `None`, an int as its decimal representation. -/
def formatOptInt : Option Int → List Char
  | none => "None".data
  | some n => (toString n).data

/-- `Slurm.cancel`: builds the command string
`'scancel {}'.format(self._job_id)` and fires it via `os.system` without
inspecting the result.  The command-wrapping hook `Base._get_command`
(`base.py` is not among the sources; the spec calls it an external
collaborator) is applied after this string is built, so the model returns
the assembled command string.  Note there is no check that `_job_id` is
set and no exception path. -/
def Slurm.cancel (self : Slurm) : List Char :=
  "scancel ".data ++ formatOptInt self._job_id

/-- Inner loop of `Slurm._get_sacct_entry` over the data rows, carried out
on the dict `sacct_return` starting from `{}` (modelled as `none`; a
populated dict `{'finished': state, 'success': exitcode}` is
`some (state, exitcode)`).  Each row is split at `'|'`; unpacking into
exactly three names raises ValueError (`.error ()`) otherwise; rows whose
identifier contains `'.batch'` are skipped; every surviving row
overwrites both keys. -/
def sacctFoldAux : List (List Char) → Option (List Char × List Char) →
    Except Unit (Option (List Char × List Char))
  | [], acc => .ok acc
  | r :: rs, acc =>
    match splitOnChar '|' r with
    | [job_string, state, exitcode] =>
      if pyInStr ".batch".data job_string then sacctFoldAux rs acc
      else sacctFoldAux rs (some (state, exitcode))
    | _ => .error ()

/-- `Slurm._get_sacct_entry`, given the captured stdout of the `sacct`
process.  Result `.ok none` models `sacct_return is None` (no data row);
`.ok (some d)` models a returned dict (`d = none` for the empty dict). -/
def Slurm._get_sacct_entry (output : List Char) :
    Except Unit (Option (Option (List Char × List Char))) :=
  let sacct_output := splitOnChar '\n' (rstripChar '\n' output)
  if 1 < sacct_output.length then
    match sacctFoldAux (sacct_output.drop 1) none with
    | .error e => .error e
    | .ok d => .ok (some d)
  else .ok none

/-- `Slurm.status`, given the captured `sacct` output: default status is
`RUNNING`; when a dict was returned, `sacct_return['finished']` is looked
up (KeyError — `.error ()` — on the empty dict), and a state outside
`_run_states` switches the status to `FINISHED` and stores the exit code
on the handle. -/
def Slurm.status (self : Slurm) (output : List Char) : Except Unit (Status × Slurm) :=
  match Slurm._get_sacct_entry output with
  | .error e => .error e
  | .ok none => .ok (Status.RUNNING, self)
  | .ok (some none) => .error ()
  | .ok (some (some (state, ec))) =>
    if state ∈ run_states then .ok (Status.RUNNING, self)
    else .ok (Status.FINISHED, { self with _exitcode := some ec })

/-- `Slurm.exitcode`, given the `sacct` output a nested `status` call would
see: if `_exitcode` is unset, runs `status` once and then returns the
stored value.  The final `Nat` component instruments the number of
`status` calls performed. -/
def Slurm.exitcode (self : Slurm) (output : List Char) :
    Except Unit (Option (List Char) × Slurm × Nat) :=
  match self._exitcode with
  | some _ => .ok (self._exitcode, self, 0)
  | none =>
    match Slurm.status self output with
    | .error e => .error e
    | .ok (_, self') => .ok (self'._exitcode, self', 1)

/-- `Slurm._get_submit_command` up to (and excluding) the external
command-wrapping hook `Base._get_command` and the final `shlex.split`
(`base.py` is not among the sources; the spec treats wrapping as an
external collaborator).  `wrapperGet` stands for `self.wrapper.get`,
which resolves the run-script attribute into the script invocation
token. -/
def Slurm._get_submit_command (wrapperGet : Option (List Char) → List Char)
    (self : Slurm) : List Char :=
  let c := "sbatch ".data
  let c := if truthy self.name then c ++ "-J ".data ++ self.name.getD [] ++ [' '] else c
  let c := if truthy self.log then c ++ "-o ".data ++ self.log.getD [] ++ [' '] else c
  let c := if truthy self.partition then c ++ "-p ".data ++ self.partition.getD [] ++ [' '] else c
  let c := if truthy self.exclude then c ++ "-x ".data ++ self.exclude.getD [] ++ [' '] else c
  let c := if truthy self.clusters then c ++ "-M ".data ++ self.clusters.getD [] ++ [' '] else c
  let c := if truthy self.qos then c ++ "--qos=".data ++ self.qos.getD [] ++ [' '] else c
  let c := if truthy self.mem then c ++ "--mem=".data ++ self.mem.getD [] ++ [' '] else c
  let c := if truthy self.time then c ++ "--time=".data ++ self.time.getD [] ++ [' '] else c
  let c := if truthy self.export_ then c ++ "--export=".data ++ self.export_.getD [] ++ [' '] else c
  let c := c ++ wrapperGet self.run_script ++ [' ']
  match self.run_args with
  | RunArgs.noArgs => c
  | RunArgs.str s => if s.isEmpty then c else c ++ s
  | RunArgs.seq l => if l.isEmpty then c else c ++ joinSpace l

/-- Lookup in a Python-dict model (association list where the most recent
write for a key is the first entry carrying that key). -/
def lookupI {α : Type} (id : Int) : List (Int × α) → Option α
  | [] => none
  | (k, v) :: t => if id = k then some v else lookupI id t

/-- Python `set.add` on the model: insertion order is recorded (first
occurrence wins) so that the set's discovery order can be spoken about;
membership agrees with the Python set. -/
def setAdd (l : List Int) (i : Int) : List Int :=
  if i ∈ l then l else l ++ [i]

/-- The three per-iteration accumulators of the `listen` closure:
`return_states`, `return_exitcodes` (Python dicts; modelled as most
recent-write-first association lists) and `job_ids` (a Python set;
modelled by its elements in first-discovery order). -/
structure ScanSt where
  states : List (Int × List Char)
  exitcodes : List (Int × List Char)
  job_ids : List Int

/-- One data row of the batched poll, as handled by the loop body of
`listen`: split at `'|'` and unpack into exactly three names (ValueError
otherwise), skip rows whose identifier contains `'.batch'` or
`'.extern'`, then convert the identifier with `int(...)` (ValueError if
not an integer literal).  `.ok none` is a skipped row. -/
def listenParseRow (row : List Char) : Except Unit (Option (Int × List Char × List Char)) :=
  match splitOnChar '|' row with
  | [job_id, state, exitcode] =>
    if pyInStr ".batch".data job_id then .ok none
    else if pyInStr ".extern".data job_id then .ok none
    else
      match pyInt job_id with
      | none => .error ()
      | some i => .ok (some (i, state, exitcode))
  | _ => .error ()

/-- The row-scanning loop of `listen` (`for res in result[1:]:`), carried
out on the accumulators. -/
def listenScanAux : List (List Char) → ScanSt → Except Unit ScanSt
  | [], st => .ok st
  | r :: rs, st =>
    match listenParseRow r with
    | .error e => .error e
    | .ok none => listenScanAux rs st
    | .ok (some (id, state, ec)) =>
      listenScanAux rs
        { states := (id, state) :: st.states,
          exitcodes := (id, ec) :: st.exitcodes,
          job_ids := setAdd st.job_ids id }

/-- The result-building loop of `listen` (`for job_id in job_ids:`),
iterating the `job_ids` set in the order given by `enum` (Python sets are
unordered, so the iteration order is a parameter of the model): running
jobs are skipped, every other id is appended to the ordered result dict
with status `FINISHED` and its recorded exit code.  A missing dict key
(impossible when `enum` enumerates the set) is a KeyError. -/
def listenEmit (st : ScanSt) : List Int → List (Int × Status × List Char) →
    Except Unit (List (Int × Status × List Char))
  | [], acc => .ok acc
  | id :: rest, acc =>
    match lookupI id st.states with
    | none => .error ()
    | some state =>
      if state ∈ run_states then listenEmit st rest acc
      else
        match lookupI id st.exitcodes with
        | none => .error ()
        | some ec => listenEmit st rest (acc ++ [(id, Status.FINISHED, ec)])

/-- One iteration of the `listen` closure's infinite loop, given the
captured `sacct` output of this poll and an enumeration `enum` of the
`job_ids` set (the iteration order of the unordered Python set).  The
returned list is the `OrderedDict` `res_dict` in insertion order; the
surrounding `results.put` / `time.sleep` are the queue publication and
the interval wait. -/
def listenIter (output : List Char) (enum : List Int) :
    Except Unit (List (Int × Status × List Char)) :=
  let result := splitOnChar '\n' (rstripChar '\n' output)
  match listenScanAux (result.drop 1) { states := [], exitcodes := [], job_ids := [] } with
  | .error e => .error e
  | .ok st => listenEmit st enum []

/-- Last element of a list, phrased with an accumulator (`lastOfAux acc l`
is the last element of `l`, or `acc` when `l` is empty). -/
def lastOfAux {α : Type} (acc : Option α) : List α → Option α
  | [] => acc
  | x :: xs => lastOfAux (some x) xs

/-- The data rows of a poll output: everything after the header line. -/
def dataRows (output : List Char) : List (List Char) :=
  (splitOnChar '\n' (rstripChar '\n' output)).drop 1

/-- Spec-side: the surviving rows of a batched poll, in scan order — the
rows of the form `identifier|state|exitcode` whose identifier contains
neither `'.batch'` nor `'.extern'`, with the identifier converted to an
integer. -/
def listenSurvivors (rows : List (List Char)) : List (Int × List Char × List Char) :=
  rows.filterMap (fun r =>
    match listenParseRow r with
    | .ok (some t) => some t
    | _ => none)

/-- Spec-side: the (state, exit code) pairs of the surviving rows carrying
a given identifier, in scan order. -/
def pairsFor (rows : List (List Char)) (id : Int) : List (List Char × List Char) :=
  (listenSurvivors rows).filterMap (fun t => if t.1 = id then some t.2 else none)

/-- Spec-side: the state and exit code of the last surviving row for a
given identifier, in scan order. -/
def listenLastFor (rows : List (List Char)) (id : Int) : Option (List Char × List Char) :=
  lastOfAux none (pairsFor rows id)

/-- A batched-poll row is handled without an exception by the loop body of
`listen` (it is either a skipped step row or a well-formed data row). -/
def rowOk (r : List Char) : Bool :=
  match listenParseRow r with
  | .ok _ => true
  | .error _ => false

/-- The per-identifier result entry the Batched Listener publishes, read
off from the last surviving row for that identifier (nothing for a
running or absent identifier). -/
def listenEntryFor (rows : List (List Char)) (i : Int) : Option (Int × Status × List Char) :=
  match listenLastFor rows i with
  | some (state, ec) =>
    if state ∈ run_states then none else some (i, Status.FINISHED, ec)
  | none => none

/-- Spec-side: the surviving identifiers of a batched poll in
first-discovery order, each listed once. -/
def idsDiscovered (rows : List (List Char)) : List Int :=
  ((listenSurvivors rows).map (fun t => t.1)).foldl setAdd []

/-- Spec-side: the surviving rows of a per-job `sacct` query, in scan
order — the rows of the form `identifier|state|exitcode` whose
identifier does not contain `'.batch'`. -/
def sacctSurvivors (rows : List (List Char)) : List (List Char × List Char) :=
  rows.filterMap (fun r =>
    match splitOnChar '|' r with
    | [job_string, state, exitcode] =>
      if pyInStr ".batch".data job_string then none else some (state, exitcode)
    | _ => none)

/-- Spec-side: a poll/query row list is well formed when every row splits
at `'|'` into exactly three fields. -/
def RowsWF (rows : List (List Char)) : Prop :=
  ∀ r ∈ rows, (splitOnChar '|' r).length = 3

instance (rows : List (List Char)) : Decidable (RowsWF rows) := by
  unfold RowsWF; infer_instance

/-- Spec-side: the command a JobSpec should produce, phrased as the spec
phrases it — exactly one flag piece per set field, nothing for an absent
field, pieces in the fixed order name, log, partition, excluded nodes,
clusters, QoS, memory, time, export, followed by the resolved run script
and the run arguments (a string verbatim, a sequence space-joined). -/
def flagPiece (flag : List Char) : Option (List Char) → List Char
  | none => []
  | some s => if s.isEmpty then [] else flag ++ s ++ [' ']

/-- Spec-side: the run-argument tail of the submit command. -/
def runArgsPart : RunArgs → List Char
  | RunArgs.noArgs => []
  | RunArgs.str s => s
  | RunArgs.seq l => joinSpace l

/-- Spec-side: the full submit command as described by the spec. -/
def submitCommandSpec (wrapperGet : Option (List Char) → List Char) (self : Slurm) :
    List Char :=
  "sbatch ".data
    ++ ([flagPiece "-J ".data self.name,
         flagPiece "-o ".data self.log,
         flagPiece "-p ".data self.partition,
         flagPiece "-x ".data self.exclude,
         flagPiece "-M ".data self.clusters,
         flagPiece "--qos=".data self.qos,
         flagPiece "--mem=".data self.mem,
         flagPiece "--time=".data self.time,
         flagPiece "--export=".data self.export_]).flatten
    ++ wrapperGet self.run_script ++ [' ']
    ++ runArgsPart self.run_args

/-- Spec-side: job-id parsing as the claim words it — the 4th
whitespace-separated token of the first line of the submission output,
converted to an integer. -/
def parseSubmitOutputSpec (s : List Char) : Option Int :=
  match (pySplitWs ((splitOnChar '\n' s).headD [])).get? 3 with
  | none => none
  | some t => pyInt t

/-- An operation on a `Slurm` handle, for stating state invariants over
operation sequences.  Each operation that talks to the scheduler carries
the captured process output it would observe. -/
inductive Op where
  | submitOp : List Char → Op
  | statusOp : List Char → Op
  | exitcodeOp : List Char → Op
  | cancelOp : Op

/-- Whether a status value is the terminal `FINISHED`. -/
def finFlag : Status → Bool
  | Status.FINISHED => true
  | Status.RUNNING => false

/-- One operation applied to a handle, together with a ghost flag
recording whether some `status` evaluation (direct, or nested inside
`exitcode`) has returned `FINISHED` so far. -/
def stepOp (s : Slurm) (g : Bool) : Op → Except Unit (Slurm × Bool)
  | Op.submitOp out =>
    match Slurm.submit s out with
    | none => .error ()
    | some (_, s') => .ok (s', g)
  | Op.statusOp out =>
    match Slurm.status s out with
    | .error e => .error e
    | .ok (st, s') => .ok (s', g || finFlag st)
  | Op.exitcodeOp out =>
    match s._exitcode with
    | some _ => .ok (s, g)
    | none =>
      match Slurm.status s out with
      | .error e => .error e
      | .ok (st, s') => .ok (s', g || finFlag st)
  | Op.cancelOp => .ok (s, g)

/-- A sequence of operations applied from a starting handle and ghost
flag; an unhandled exception aborts the run. -/
def runOps : Slurm × Bool → List Op → Except Unit (Slurm × Bool)
  | sg, [] => .ok sg
  | (s, g), op :: ops =>
    match stepOp s g op with
    | .error e => .error e
    | .ok sg' => runOps sg' ops

/-- A freshly constructed handle with every construction argument left at
its `None` default. -/
def slurmDefault : Slurm :=
  initSlurm none none none RunArgs.noArgs none none none none none none none

/-- The batched-poll output of the spec's Batched Listener example. -/
def outListen : List Char :=
  "JobID|State|ExitCode\n10|RUNNING|\n11|FAILED|1:0\n11.batch|FAILED|1:0\n12.extern|COMPLETED|0:0\n".data

/-- A batched-poll output whose two finished jobs are discovered in the
order 11, 2. -/
def outTwo : List Char :=
  "JobID|State|ExitCode\n11|FAILED|1:0\n2|FAILED|0:0\n".data

/-- A per-job query output reporting a completed job. -/
def outDone : List Char := "JobID|State|ExitCode\n4242|COMPLETED|0:0".data

/-- The per-job query output of the spec's running-job example (parent row
plus batch-step row, both still running). -/
def outRun : List Char := "JobID|State|ExitCode\n4242|RUNNING|\n4242.batch|RUNNING|".data

/-- A per-job query output whose only data row is a batch-step row. -/
def outBatchOnly : List Char := "JobID|State|ExitCode\n4242.batch|COMPLETED|0:0".data

/-- A submission output in which the scheduler template carries a doubled
space, so that its 4th whitespace-separated token (`4242`) differs from
its 4th single-space-separated field (`job`). -/
def outDoubleSpace : List Char := "Submitted batch  job 4242\n".data

theorem dropWhile_eq_self_of_forall {α : Type} (p : α → Bool) :
    ∀ l : List α, (∀ x ∈ l, p x = false) → l.dropWhile p = l := by
  intro l h
  cases l with
  | nil => rfl
  | cons x xs =>
    rw [List.dropWhile_cons, h x (List.mem_cons_self x xs)]
    simp

theorem isDigit_ne {c x : Char} (h : c.isDigit = true) (hx : x.isDigit = false) :
    c ≠ x := by
  intro e
  rw [e, hx] at h
  cases h

theorem isPySpace_eq_false_of_isDigit {c : Char} (h : c.isDigit = true) :
    isPySpace c = false := by
  unfold isPySpace
  have h1 : c ≠ ' ' := isDigit_ne h (by decide)
  have h2 : c ≠ '\t' := isDigit_ne h (by decide)
  have h3 : c ≠ '\n' := isDigit_ne h (by decide)
  have h4 : c ≠ '\r' := isDigit_ne h (by decide)
  have h5 : c ≠ '\x0b' := isDigit_ne h (by decide)
  have h6 : c ≠ '\x0c' := isDigit_ne h (by decide)
  simp [h1, h2, h3, h4, h5, h6]

theorem pyStrip_of_digits {d : List Char} (hd : d.all Char.isDigit = true) :
    pyStrip d = d := by
  have hall : ∀ x ∈ d, Char.isDigit x = true := by
    intro x hx; exact List.all_eq_true.mp hd x hx
  have h1 : d.dropWhile isPySpace = d :=
    dropWhile_eq_self_of_forall _ d
      (fun x hx => isPySpace_eq_false_of_isDigit (hall x hx))
  have h2 : d.reverse.dropWhile isPySpace = d.reverse :=
    dropWhile_eq_self_of_forall _ d.reverse
      (fun x hx => isPySpace_eq_false_of_isDigit (hall x (List.mem_reverse.mp hx)))
  unfold pyStrip
  rw [h1, h2, List.reverse_reverse]

theorem pyInt_of_digits {d : List Char} (hne : d ≠ []) (hd : d.all Char.isDigit = true) :
    pyInt d = some (digitsToNat d : Int) := by
  unfold pyInt
  rw [pyStrip_of_digits hd]
  cases d with
  | nil => exact absurd rfl hne
  | cons c cs =>
    have hc : c.isDigit = true := List.all_eq_true.mp hd c (List.mem_cons_self c cs)
    rw [if_neg (by simp), if_neg, if_neg, if_pos hd]
    · simp only [List.head?_cons, Option.some.injEq]
      exact isDigit_ne hc (by decide)
    · simp only [List.head?_cons, Option.some.injEq]
      exact isDigit_ne hc (by decide)

theorem splitOnChar_of_not_mem {c : Char} : ∀ {l : List Char}, c ∉ l →
    splitOnChar c l = [l] := by
  intro l
  induction l with
  | nil => intro _; rfl
  | cons x xs ih =>
    intro h
    have hx : ¬x = c := fun e => h (e ▸ List.mem_cons_self x xs)
    have hxs : c ∉ xs := fun e => h (List.mem_cons_of_mem _ e)
    rw [splitOnChar, if_neg hx, ih hxs]

theorem splitOnChar_append_cons {c : Char} : ∀ {l : List Char}, c ∉ l →
    ∀ rest, splitOnChar c (l ++ c :: rest) = l :: splitOnChar c rest := by
  intro l
  induction l with
  | nil =>
    intro _ rest
    rw [List.nil_append, splitOnChar, if_pos rfl]
  | cons x xs ih =>
    intro h rest
    have hx : ¬x = c := fun e => h (e ▸ List.mem_cons_self x xs)
    have hxs : c ∉ xs := fun e => h (List.mem_cons_of_mem _ e)
    rw [List.cons_append, splitOnChar, if_neg hx, ih hxs rest]

theorem rstripChar_append_same {c : Char} {d : List Char} (h : c ∉ d) :
    rstripChar c (d ++ [c]) = d := by
  unfold rstripChar
  rw [List.reverse_append]
  show ((c :: d.reverse).dropWhile (fun x => x = c)).reverse = d
  rw [List.dropWhile_cons]
  simp only [decide_True, if_true]
  rw [dropWhile_eq_self_of_forall _ d.reverse
    (fun x hx => by
      have : x ∈ d := List.mem_reverse.mp hx
      simp only [decide_eq_false_iff_not]
      exact fun e => h (e ▸ this)),
    List.reverse_reverse]

theorem ite_truthy_append (c flag : List Char) (v : Option (List Char)) :
    (if truthy v then c ++ flag ++ v.getD [] ++ [' '] else c) = c ++ flagPiece flag v := by
  cases v with
  | none => simp [truthy, flagPiece]
  | some a =>
    cases a with
    | nil => simp [truthy, flagPiece, List.isEmpty]
    | cons x xs => simp [truthy, flagPiece, List.isEmpty, List.append_assoc]

/-- C3: for every JobSpec (a `Slurm` object) with any subset of the
optional fields set, the built submit command is exactly the spec-shaped
command: one flag piece per set field and nothing for an absent field, in
the fixed order name, log, partition, excluded nodes, clusters, QoS,
memory, time, export, followed by the resolved run script and then the
run arguments (a string appended verbatim, a sequence space-joined). -/
theorem submit_command_matches_spec (wrapperGet : Option (List Char) → List Char)
    (self : Slurm) :
    Slurm._get_submit_command wrapperGet self = submitCommandSpec wrapperGet self := by
  simp only [Slurm._get_submit_command, submitCommandSpec, ite_truthy_append,
    List.flatten]
  cases self.run_args with
  | noArgs => simp [runArgsPart, List.append_assoc]
  | str s =>
    cases s with
    | nil => simp [runArgsPart, List.append_assoc]
    | cons x xs => simp [runArgsPart, List.isEmpty, List.append_assoc]
  | seq l =>
    cases l with
    | nil => simp [runArgsPart, joinSpace, List.append_assoc]
    | cons x xs => simp [runArgsPart, List.isEmpty, List.append_assoc]

/-- C8 counterexample: cancelling a handle with no assigned job identifier
raises nothing — `cancel` runs to completion and fires the command
`scancel None`, with Python's rendering of `None` in place of the job
identifier, contradicting the claim that this is a fail-fast contract
violation. -/
theorem cancel_unset_id_counterexample :
    slurmDefault._job_id = none ∧ Slurm.cancel slurmDefault = "scancel None".data :=
  ⟨rfl, rfl⟩

/-- C8 (amended): cancelling a handle with no assigned job identifier does
not fail fast; the cancellation command is built and fired with the
literal text `None` in place of the identifier. -/
theorem cancel_unset_id (s : Slurm) (h : s._job_id = none) :
    Slurm.cancel s = "scancel None".data := by
  unfold Slurm.cancel
  rw [h]
  rfl

theorem cancel_unset_id_witness :
    Slurm.cancel slurmDefault = "scancel None".data :=
  cancel_unset_id slurmDefault rfl

/-- C6: if an exit code is already stored, `exitcode` returns it with zero
`status` calls and an unchanged handle; if none is stored, `exitcode`
performs exactly one `status` call and returns whatever exit code that
call leaves on the handle (possibly still absent). -/
theorem exitcode_status_calls (s : Slurm) (out : List Char) :
    (∀ e, s._exitcode = some e → Slurm.exitcode s out = .ok (some e, s, 0)) ∧
    (s._exitcode = none → ∀ st s', Slurm.status s out = .ok (st, s') →
      Slurm.exitcode s out = .ok (s'._exitcode, s', 1)) := by
  constructor
  · intro e he
    unfold Slurm.exitcode
    rw [he]
  · intro h st s' hs
    unfold Slurm.exitcode
    rw [h, hs]

theorem exitcode_status_calls_witness :
    Slurm.exitcode { slurmDefault with _exitcode := some "0:0".data } outDone
        = .ok (some "0:0".data, { slurmDefault with _exitcode := some "0:0".data }, 0) ∧
    Slurm.exitcode slurmDefault outDone
        = .ok (some "0:0".data, { slurmDefault with _exitcode := some "0:0".data }, 1) :=
  ⟨(exitcode_status_calls { slurmDefault with _exitcode := some "0:0".data } outDone).1
      ("0:0".data) rfl,
   (exitcode_status_calls slurmDefault outDone).2 rfl Status.FINISHED
      { slurmDefault with _exitcode := some "0:0".data } rfl⟩

theorem splitOnChar_submitted (rest : List Char) :
    splitOnChar ' ' ("Submitted batch job ".data ++ rest)
      = "Submitted".data :: "batch".data :: "job".data :: splitOnChar ' ' rest := rfl

theorem pySplitWsAux_submitted (rest : List Char) :
    pySplitWsAux ("Submitted batch job ".data ++ rest) []
      = "Submitted".data :: "batch".data :: "job".data :: pySplitWsAux rest [] := rfl

theorem pySplitWsAux_digits : ∀ (d acc : List Char), d.all Char.isDigit = true →
    acc.reverse ++ d ≠ [] → pySplitWsAux d acc = [acc.reverse ++ d] := by
  intro d
  induction d with
  | nil =>
    intro acc _ hne
    have hacc : acc ≠ [] := by
      intro e
      exact hne (by rw [e]; rfl)
    unfold pySplitWsAux
    rw [if_neg (by simpa [List.isEmpty_iff] using hacc)]
    simp
  | cons c cs ih =>
    intro acc hd _
    have hc : c.isDigit = true := List.all_eq_true.mp hd c (List.mem_cons_self c cs)
    have hcs : cs.all Char.isDigit = true := by
      rw [List.all_eq_true]
      intro x hx
      exact List.all_eq_true.mp hd x (List.mem_cons_of_mem _ hx)
    unfold pySplitWsAux
    rw [if_neg (by rw [isPySpace_eq_false_of_isDigit hc]; simp)]
    rw [ih (c :: acc) hcs (by simp)]
    simp

/-- C4 counterexample: on the output `Submitted batch  job 4242\n` (the
scheduler template with a doubled space) the 4th whitespace-separated
token of the first line is `4242`, but `submit` raises (the 4th
single-space-separated field is `job`, which `int(...)` rejects) — so
`submit` does not parse the identifier as the 4th whitespace-separated
token of the first line. -/
theorem submit_whitespace_counterexample :
    parseSubmitOutputSpec outDoubleSpace = some 4242 ∧
    Slurm.submit slurmDefault outDoubleSpace = none :=
  ⟨rfl, rfl⟩

/-- C4 (amended): `submit` parses the job identifier as the 4th
single-space-separated field of the entire output with trailing newlines
stripped from that field, stores it on the handle and returns it; on the
fixed single-spaced template `Submitted batch job <id>\n` this coincides
with the 4th whitespace-separated token of the first line, and both
parses yield the identifier's value. -/
theorem submit_template (s : Slurm) (d : List Char) (hne : d ≠ [])
    (hd : d.all Char.isDigit = true) :
    Slurm.submit s ("Submitted batch job ".data ++ d ++ ['\n'])
        = some ((digitsToNat d : Int),
            { s with _job_id := some (digitsToNat d : Int) }) ∧
    parseSubmitOutputSpec ("Submitted batch job ".data ++ d ++ ['\n'])
        = some (digitsToNat d : Int) := by
  have hdig : ∀ x ∈ d, x.isDigit = true := fun x hx => List.all_eq_true.mp hd x hx
  have hnospace : ' ' ∉ d ++ ['\n'] := by
    intro hmem
    rcases List.mem_append.mp hmem with h | h
    · exact isDigit_ne (hdig ' ' h) (by decide) rfl
    · simp at h
  have hnonl : '\n' ∉ d := fun hmem => isDigit_ne (hdig '\n' hmem) (by decide) rfl
  have hsplit : splitOnChar ' ' ("Submitted batch job ".data ++ d ++ ['\n'])
      = ["Submitted".data, "batch".data, "job".data, d ++ ['\n']] := by
    rw [List.append_assoc, splitOnChar_submitted (d ++ ['\n']),
      splitOnChar_of_not_mem hnospace]
  have hcode : parseSubmitOutput ("Submitted batch job ".data ++ d ++ ['\n'])
      = some (digitsToNat d : Int) := by
    unfold parseSubmitOutput
    rw [hsplit]
    show pyInt (rstripChar '\n' (d ++ ['\n'])) = some (digitsToNat d : Int)
    rw [rstripChar_append_same hnonl, pyInt_of_digits hne hd]
  constructor
  · unfold Slurm.submit
    rw [hcode]
  · unfold parseSubmitOutputSpec
    have hline : splitOnChar '\n' ("Submitted batch job ".data ++ d ++ ['\n'])
        = [("Submitted batch job ".data ++ d), []] := by
      have hmem : '\n' ∉ "Submitted batch job ".data ++ d := by
        intro hmem
        rcases List.mem_append.mp hmem with h | h
        · revert h; decide
        · exact hnonl h
      have := splitOnChar_append_cons hmem []
      simpa [List.append_assoc] using this
    have htok : pySplitWs ("Submitted batch job ".data ++ d)
        = ["Submitted".data, "batch".data, "job".data, d] := by
      unfold pySplitWs
      rw [pySplitWsAux_submitted d, pySplitWsAux_digits d [] hd (by simpa using hne)]
      rfl
    rw [hline, List.headD_cons, htok]
    show pyInt d = some (digitsToNat d : Int)
    exact pyInt_of_digits hne hd

theorem submit_template_witness :
    Slurm.submit slurmDefault "Submitted batch job 4242\n".data
        = some ((4242 : Int), { slurmDefault with _job_id := some (4242 : Int) }) ∧
    parseSubmitOutputSpec "Submitted batch job 4242\n".data = some (4242 : Int) :=
  submit_template slurmDefault "4242".data (by decide) (by decide)

theorem length_three {α : Type} {l : List α} (h : l.length = 3) :
    ∃ a b c, l = [a, b, c] := by
  rcases l with _ | ⟨a, _ | ⟨b, _ | ⟨c, _ | ⟨d, t⟩⟩⟩⟩ <;> simp_all

theorem sacctFoldAux_cons (r : List Char) (rs : List (List Char))
    (acc : Option (List Char × List Char)) :
    sacctFoldAux (r :: rs) acc =
      match splitOnChar '|' r with
      | [job_string, state, exitcode] =>
        if pyInStr ".batch".data job_string then sacctFoldAux rs acc
        else sacctFoldAux rs (some (state, exitcode))
      | _ => .error () := rfl

theorem sacctFoldAux_eq : ∀ (rows : List (List Char)), RowsWF rows →
    ∀ acc, sacctFoldAux rows acc = .ok (lastOfAux acc (sacctSurvivors rows)) := by
  intro rows
  induction rows with
  | nil => intro _ acc; rfl
  | cons r rs ih =>
    intro hwf acc
    have hrs : RowsWF rs := fun x hx => hwf x (List.mem_cons_of_mem _ hx)
    obtain ⟨a, b, c, h3⟩ := length_three (hwf r (List.mem_cons_self r rs))
    by_cases hb : pyInStr ".batch".data a = true
    · rw [show sacctFoldAux (r :: rs) acc = sacctFoldAux rs acc by
        rw [sacctFoldAux_cons, h3]; simp [hb]]
      rw [show sacctSurvivors (r :: rs) = sacctSurvivors rs by
        unfold sacctSurvivors; rw [List.filterMap_cons, h3]; simp [hb]]
      exact ih hrs acc
    · rw [show sacctFoldAux (r :: rs) acc = sacctFoldAux rs (some (b, c)) by
        rw [sacctFoldAux_cons, h3]; simp [hb]]
      rw [show sacctSurvivors (r :: rs) = (b, c) :: sacctSurvivors rs by
        unfold sacctSurvivors; rw [List.filterMap_cons, h3]; simp [hb]]
      rw [show lastOfAux acc ((b, c) :: sacctSurvivors rs)
            = lastOfAux (some (b, c)) (sacctSurvivors rs) from rfl]
      exact ih hrs (some (b, c))

theorem status_of_last (self : Slurm) (out : List Char) (st ec : List Char)
    (hlen : 1 < (splitOnChar '\n' (rstripChar '\n' out)).length)
    (hwf : RowsWF (dataRows out))
    (hlast : lastOfAux none (sacctSurvivors (dataRows out)) = some (st, ec)) :
    (st ∈ run_states → Slurm.status self out = .ok (Status.RUNNING, self)) ∧
    (st ∉ run_states →
      Slurm.status self out = .ok (Status.FINISHED, { self with _exitcode := some ec })) := by
  have hentry : Slurm._get_sacct_entry out = .ok (some (some (st, ec))) := by
    unfold Slurm._get_sacct_entry
    simp only [dataRows] at hwf hlast
    rw [if_pos hlen, sacctFoldAux_eq _ hwf none, hlast]
  constructor
  · intro hrun
    unfold Slurm.status
    rw [hentry]
    show (if st ∈ run_states then Except.ok (Status.RUNNING, self) else _) = _
    rw [if_pos hrun]
  · intro hrun
    unfold Slurm.status
    rw [hentry]
    show (if st ∈ run_states then _ else
      Except.ok (Status.FINISHED, { self with _exitcode := some ec })) = _
    rw [if_neg hrun]

theorem status_no_rows (self : Slurm) (out : List Char)
    (hlen : ¬1 < (splitOnChar '\n' (rstripChar '\n' out)).length) :
    Slurm.status self out = .ok (Status.RUNNING, self) := by
  have hentry : Slurm._get_sacct_entry out = .ok none := by
    unfold Slurm._get_sacct_entry
    rw [if_neg hlen]
  unfold Slurm.status
  rw [hentry]

/-- C2: when the per-job query output has at least one data row surviving
the batch-step filter, `status` takes the state and exit code of the last
surviving row: a state in the running set reports `RUNNING` with the
handle untouched, any other state reports `FINISHED` and stores that
row's exit code on the handle. -/
theorem status_last_surviving_row (self : Slurm) (out : List Char) (st ec : List Char)
    (hlen : 1 < (splitOnChar '\n' (rstripChar '\n' out)).length)
    (hwf : RowsWF (dataRows out))
    (hlast : lastOfAux none (sacctSurvivors (dataRows out)) = some (st, ec)) :
    (st ∈ run_states → Slurm.status self out = .ok (Status.RUNNING, self)) ∧
    (st ∉ run_states →
      Slurm.status self out = .ok (Status.FINISHED, { self with _exitcode := some ec })) :=
  status_of_last self out st ec hlen hwf hlast

theorem status_last_surviving_row_witness :
    ("COMPLETED".data ∉ run_states) ∧
    Slurm.status slurmDefault outDone
      = .ok (Status.FINISHED, { slurmDefault with _exitcode := some "0:0".data }) :=
  ⟨by decide,
   (status_last_surviving_row slurmDefault outDone "COMPLETED".data "0:0".data
      (by decide) (by decide) (by decide)).2 (by decide)⟩

/-- C7: a per-job query output with no data row (header only, or empty)
reports `RUNNING` and leaves the handle — in particular its stored exit
code — unchanged; the same holds when the last surviving row's state is
in the running set. -/
theorem status_running_frame (self : Slurm) (out : List Char) :
    (¬1 < (splitOnChar '\n' (rstripChar '\n' out)).length →
      Slurm.status self out = .ok (Status.RUNNING, self)) ∧
    (∀ st ec, 1 < (splitOnChar '\n' (rstripChar '\n' out)).length →
      RowsWF (dataRows out) →
      lastOfAux none (sacctSurvivors (dataRows out)) = some (st, ec) →
      st ∈ run_states →
      Slurm.status self out = .ok (Status.RUNNING, self)) :=
  ⟨fun hlen => status_no_rows self out hlen,
   fun st ec hlen hwf hlast hrun =>
     (status_of_last self out st ec hlen hwf hlast).1 hrun⟩

theorem status_running_frame_witness :
    Slurm.status slurmDefault [] = .ok (Status.RUNNING, slurmDefault) ∧
    ("RUNNING".data ∈ run_states) ∧
    Slurm.status slurmDefault outRun = .ok (Status.RUNNING, slurmDefault) :=
  ⟨(status_running_frame slurmDefault []).1 (by decide),
   by decide,
   (status_running_frame slurmDefault outRun).2 "RUNNING".data [] (by decide)
     (by decide) (by decide) (by decide)⟩

theorem sacctSurvivors_nil : ∀ (rows : List (List Char)), RowsWF rows →
    (∀ r ∈ rows, pyInStr ".batch".data ((splitOnChar '|' r).headD []) = true) →
    sacctSurvivors rows = [] := by
  intro rows
  induction rows with
  | nil => intro _ _; rfl
  | cons r rs ih =>
    intro hwf hall
    have hrs : RowsWF rs := fun x hx => hwf x (List.mem_cons_of_mem _ hx)
    obtain ⟨a, b, c, h3⟩ := length_three (hwf r (List.mem_cons_self r rs))
    have hb := hall r (List.mem_cons_self r rs)
    rw [h3, List.headD_cons] at hb
    rw [show sacctSurvivors (r :: rs) = sacctSurvivors rs by
      unfold sacctSurvivors; rw [List.filterMap_cons, h3]; simp [hb]]
    exact ih hrs (fun x hx => hall x (List.mem_cons_of_mem _ hx))

/-- C10: if the per-job query output has a header and at least one data
row, but every data row's identifier contains `.batch`, then `status`
does not return a status — the row loop leaves the record empty and the
lookup of the state key raises an unhandled KeyError; and whenever some
data row survives the filter, `status` does return a status, so the
error branch is unreachable exactly under that precondition. -/
theorem status_all_batch_keyerror (self : Slurm) (out : List Char)
    (hlen : 1 < (splitOnChar '\n' (rstripChar '\n' out)).length)
    (hwf : RowsWF (dataRows out)) :
    ((∀ r ∈ dataRows out, pyInStr ".batch".data ((splitOnChar '|' r).headD []) = true) →
      Slurm.status self out = .error ()) ∧
    (∀ st ec, lastOfAux none (sacctSurvivors (dataRows out)) = some (st, ec) →
      ∃ stat s', Slurm.status self out = .ok (stat, s')) := by
  constructor
  · intro hall
    have hentry : Slurm._get_sacct_entry out = .ok (some none) := by
      unfold Slurm._get_sacct_entry
      simp only [dataRows] at hwf hall
      rw [if_pos hlen, sacctFoldAux_eq _ hwf none, sacctSurvivors_nil _ hwf hall]
      rfl
    unfold Slurm.status
    rw [hentry]
  · intro st ec hlast
    by_cases hrun : st ∈ run_states
    · exact ⟨Status.RUNNING, self,
        (status_of_last self out st ec hlen hwf hlast).1 hrun⟩
    · exact ⟨Status.FINISHED, { self with _exitcode := some ec },
        (status_of_last self out st ec hlen hwf hlast).2 hrun⟩

theorem status_all_batch_keyerror_witness :
    Slurm.status slurmDefault outBatchOnly = .error () ∧
    (∃ stat s', Slurm.status slurmDefault outDone = .ok (stat, s')) :=
  ⟨(status_all_batch_keyerror slurmDefault outBatchOnly (by decide) (by decide)).1
      (by decide),
   (status_all_batch_keyerror slurmDefault outDone (by decide) (by decide)).2
      "COMPLETED".data "0:0".data (by decide)⟩

theorem lastOfAux_acc_irrel {α : Type} : ∀ (l : List α) (acc acc' : Option α), l ≠ [] →
    lastOfAux acc l = lastOfAux acc' l := by
  intro l
  induction l with
  | nil => intro _ _ h; exact absurd rfl h
  | cons x xs ih =>
    intro acc acc' _
    show lastOfAux (some x) xs = lastOfAux (some x) xs
    rfl

theorem lastOfAux_eq_getLast? {α : Type} : ∀ l : List α, lastOfAux none l = l.getLast? := by
  intro l
  induction l with
  | nil => rfl
  | cons x xs ih =>
    cases xs with
    | nil => rfl
    | cons y ys =>
      show lastOfAux (some x) (y :: ys) = (x :: y :: ys).getLast?
      rw [lastOfAux_acc_irrel (y :: ys) (some x) none (by simp), ih,
        List.getLast?_cons_cons]

theorem lastOfAux_ne_none_of_acc {α : Type} : ∀ (l : List α) (acc : Option α),
    acc ≠ none → lastOfAux acc l ≠ none := by
  intro l
  induction l with
  | nil => intro acc h; exact h
  | cons x xs ih => intro acc _; exact ih (some x) (by simp)

theorem lastOfAux_ne_none {α : Type} (l : List α) (acc : Option α) (h : l ≠ []) :
    lastOfAux acc l ≠ none := by
  cases l with
  | nil => exact absurd rfl h
  | cons x xs => exact lastOfAux_ne_none_of_acc xs (some x) (by simp)

theorem lastOfAux_map {α β : Type} (f : α → β) : ∀ (l : List α) (acc : Option α),
    lastOfAux (acc.map f) (l.map f) = (lastOfAux acc l).map f := by
  intro l
  induction l with
  | nil => intro acc; rfl
  | cons x xs ih =>
    intro acc
    show lastOfAux (some (f x)) (xs.map f) = (lastOfAux (some x) xs).map f
    rw [show (some (f x)) = (some x).map f from rfl, ih (some x)]

theorem lookupI_cons {α : Type} (i k : Int) (v : α) (t : List (Int × α)) :
    lookupI i ((k, v) :: t) = if i = k then some v else lookupI i t := rfl

theorem mem_setAdd (l : List Int) (i j : Int) : i ∈ setAdd l j ↔ i ∈ l ∨ i = j := by
  unfold setAdd
  by_cases h : j ∈ l
  · rw [if_pos h]
    constructor
    · exact fun hi => Or.inl hi
    · rintro (hi | rfl) <;> assumption
  · rw [if_neg h]
    simp [List.mem_append]

theorem nodup_setAdd (l : List Int) (i : Int) (h : l.Nodup) : (setAdd l i).Nodup := by
  unfold setAdd
  by_cases hi : i ∈ l
  · rwa [if_pos hi]
  · rw [if_neg hi]
    simp [List.nodup_append, h, hi]

theorem mem_foldl_setAdd : ∀ (l : List Int) (init : List Int) (i : Int),
    i ∈ l.foldl setAdd init ↔ i ∈ init ∨ i ∈ l := by
  intro l
  induction l with
  | nil => intro init i; simp
  | cons j js ih =>
    intro init i
    rw [List.foldl_cons, ih (setAdd init j) i, mem_setAdd]
    constructor
    · rintro ((h | rfl) | h)
      · exact Or.inl h
      · exact Or.inr (List.mem_cons_self ..)
      · exact Or.inr (List.mem_cons_of_mem _ h)
    · rintro (h | h)
      · exact Or.inl (Or.inl h)
      · rcases List.mem_cons.mp h with rfl | h
        · exact Or.inl (Or.inr rfl)
        · exact Or.inr h

theorem nodup_foldl_setAdd : ∀ (l : List Int) (init : List Int), init.Nodup →
    (l.foldl setAdd init).Nodup := by
  intro l
  induction l with
  | nil => intro init h; exact h
  | cons j js ih =>
    intro init h
    rw [List.foldl_cons]
    exact ih (setAdd init j) (nodup_setAdd init j h)

theorem mem_idsDiscovered (rows : List (List Char)) (i : Int) :
    i ∈ idsDiscovered rows ↔ ∃ t ∈ listenSurvivors rows, t.1 = i := by
  unfold idsDiscovered
  rw [mem_foldl_setAdd]
  simp [List.mem_map, eq_comm]

theorem idsDiscovered_nodup (rows : List (List Char)) : (idsDiscovered rows).Nodup :=
  nodup_foldl_setAdd _ [] List.nodup_nil

theorem listenScanAux_cons (r : List Char) (rs : List (List Char)) (st : ScanSt) :
    listenScanAux (r :: rs) st =
      match listenParseRow r with
      | .error e => .error e
      | .ok none => listenScanAux rs st
      | .ok (some (id, state, ec)) =>
        listenScanAux rs
          { states := (id, state) :: st.states,
            exitcodes := (id, ec) :: st.exitcodes,
            job_ids := setAdd st.job_ids id } := rfl

theorem listenSurvivors_cons_skip {r : List Char} (rs : List (List Char))
    (h : listenParseRow r = .ok none) :
    listenSurvivors (r :: rs) = listenSurvivors rs := by
  unfold listenSurvivors
  rw [List.filterMap_cons, h]

theorem listenSurvivors_cons_keep {r : List Char} (rs : List (List Char))
    {t : Int × List Char × List Char} (h : listenParseRow r = .ok (some t)) :
    listenSurvivors (r :: rs) = t :: listenSurvivors rs := by
  unfold listenSurvivors
  rw [List.filterMap_cons, h]

theorem listenScanAux_eq : ∀ (rows : List (List Char)),
    (∀ r ∈ rows, rowOk r = true) → ∀ st : ScanSt,
    ∃ st', listenScanAux rows st = .ok st' ∧
      (∀ i, lookupI i st'.states
        = lastOfAux (lookupI i st.states) ((pairsFor rows i).map (fun p => p.1))) ∧
      (∀ i, lookupI i st'.exitcodes
        = lastOfAux (lookupI i st.exitcodes) ((pairsFor rows i).map (fun p => p.2))) ∧
      st'.job_ids = ((listenSurvivors rows).map (fun t => t.1)).foldl setAdd st.job_ids := by
  intro rows
  induction rows with
  | nil =>
    intro _ st
    exact ⟨st, rfl, fun i => rfl, fun i => rfl, rfl⟩
  | cons r rs ih =>
    intro hwf st
    have hrs : ∀ x ∈ rs, rowOk x = true := fun x hx => hwf x (List.mem_cons_of_mem _ hx)
    have hr := hwf r (List.mem_cons_self r rs)
    match hp : listenParseRow r with
    | .error e =>
      rw [rowOk, hp] at hr
      cases hr
    | .ok none =>
      obtain ⟨st', hscan, hstates, hecs, hids⟩ := ih hrs st
      refine ⟨st', ?_, ?_, ?_, ?_⟩
      · rw [listenScanAux_cons, hp]
        exact hscan
      · intro i
        rw [show pairsFor (r :: rs) i = pairsFor rs i by
          unfold pairsFor; rw [listenSurvivors_cons_skip rs hp]]
        exact hstates i
      · intro i
        rw [show pairsFor (r :: rs) i = pairsFor rs i by
          unfold pairsFor; rw [listenSurvivors_cons_skip rs hp]]
        exact hecs i
      · rw [listenSurvivors_cons_skip rs hp]
        exact hids
    | .ok (some (id0, st0, ec0)) =>
      obtain ⟨st', hscan, hstates, hecs, hids⟩ := ih hrs
        { states := (id0, st0) :: st.states,
          exitcodes := (id0, ec0) :: st.exitcodes,
          job_ids := setAdd st.job_ids id0 }
      have hsurv := listenSurvivors_cons_keep rs hp
      refine ⟨st', ?_, ?_, ?_, ?_⟩
      · rw [listenScanAux_cons, hp]
        exact hscan
      · intro i
        have hpair : pairsFor (r :: rs) i
            = if id0 = i then (st0, ec0) :: pairsFor rs i else pairsFor rs i := by
          unfold pairsFor
          rw [hsurv, List.filterMap_cons]
          by_cases hid : id0 = i
          · simp [hid]
          · simp [hid]
        rw [hstates i, lookupI_cons, hpair]
        by_cases hid : id0 = i
        · rw [if_pos hid, if_pos hid.symm]
          show lastOfAux (some st0) _ = lastOfAux (some st0) _
          rfl
        · rw [if_neg hid, if_neg (fun e => hid e.symm)]
      · intro i
        have hpair : pairsFor (r :: rs) i
            = if id0 = i then (st0, ec0) :: pairsFor rs i else pairsFor rs i := by
          unfold pairsFor
          rw [hsurv, List.filterMap_cons]
          by_cases hid : id0 = i
          · simp [hid]
          · simp [hid]
        rw [hecs i, lookupI_cons, hpair]
        by_cases hid : id0 = i
        · rw [if_pos hid, if_pos hid.symm]
          show lastOfAux (some ec0) _ = lastOfAux (some ec0) _
          rfl
        · rw [if_neg hid, if_neg (fun e => hid e.symm)]
      · rw [hsurv, hids]
        rfl

theorem listenEmit_cons (st : ScanSt) (i : Int) (rest : List Int)
    (acc : List (Int × Status × List Char)) :
    listenEmit st (i :: rest) acc =
      match lookupI i st.states with
      | none => .error ()
      | some state =>
        if state ∈ run_states then listenEmit st rest acc
        else
          match lookupI i st.exitcodes with
          | none => .error ()
          | some ec => listenEmit st rest (acc ++ [(i, Status.FINISHED, ec)]) := rfl

theorem listenEmit_eq (st : ScanSt) (f : Int → Option (List Char × List Char))
    (hst : ∀ i, lookupI i st.states = (f i).map (fun p => p.1))
    (hec : ∀ i, lookupI i st.exitcodes = (f i).map (fun p => p.2)) :
    ∀ (enum : List Int) (acc : List (Int × Status × List Char)),
    (∀ i ∈ enum, f i ≠ none) →
    listenEmit st enum acc = .ok (acc ++ enum.filterMap (fun i =>
      match f i with
      | some (state, ec) =>
        if state ∈ run_states then none else some (i, Status.FINISHED, ec)
      | none => none)) := by
  intro enum
  induction enum with
  | nil => intro acc _; simp [listenEmit]
  | cons i rest ih =>
    intro acc hmem
    have hi : f i ≠ none := hmem i (List.mem_cons_self i rest)
    have hrest : ∀ x ∈ rest, f x ≠ none := fun x hx => hmem x (List.mem_cons_of_mem _ hx)
    obtain ⟨p, hp0⟩ : ∃ p, f i = some p := by
      cases hfi : f i with
      | none => exact absurd hfi hi
      | some p => exact ⟨p, rfl⟩
    obtain ⟨state, ec⟩ := p
    have hp : f i = some (state, ec) := hp0
    have h1 : lookupI i st.states = some state := by rw [hst i, hp]; rfl
    have h2 : lookupI i st.exitcodes = some ec := by rw [hec i, hp]; rfl
    rw [listenEmit_cons, h1]
    show (if state ∈ run_states then listenEmit st rest acc
      else match lookupI i st.exitcodes with
        | none => Except.error ()
        | some ec => listenEmit st rest (acc ++ [(i, Status.FINISHED, ec)])) = _
    rw [List.filterMap_cons]
    by_cases hrun : state ∈ run_states
    · rw [if_pos hrun, show (match f i with
          | some (state, ec) =>
            if state ∈ run_states then none else some (i, Status.FINISHED, ec)
          | none => none) = (none : Option (Int × Status × List Char)) by
        rw [hp]
        show (if state ∈ run_states then none else some (i, Status.FINISHED, ec)) = none
        rw [if_pos hrun]]
      exact ih acc hrest
    · rw [if_neg hrun, h2]
      show listenEmit st rest (acc ++ [(i, Status.FINISHED, ec)]) = _
      rw [show (match f i with
          | some (state, ec) =>
            if state ∈ run_states then none else some (i, Status.FINISHED, ec)
          | none => none) = some (i, Status.FINISHED, ec) by
        rw [hp]
        show (if state ∈ run_states then none else some (i, Status.FINISHED, ec)) = _
        rw [if_neg hrun]]
      rw [ih (acc ++ [(i, Status.FINISHED, ec)]) hrest]
      simp [List.append_assoc]

theorem pairsFor_map_entryFor (rows : List (List Char)) (i : Int) :
    (listenEntryFor rows i) = match listenLastFor rows i with
      | some (state, ec) =>
        if state ∈ run_states then none else some (i, Status.FINISHED, ec)
      | none => none := rfl

theorem listenLastFor_ne_none_iff (rows : List (List Char)) (i : Int) :
    listenLastFor rows i ≠ none ↔ ∃ t ∈ listenSurvivors rows, t.1 = i := by
  constructor
  · intro h
    have hne : pairsFor rows i ≠ [] := by
      intro he
      rw [listenLastFor, he] at h
      exact h rfl
    have : ¬∀ t ∈ listenSurvivors rows,
        (fun t : Int × List Char × List Char =>
          if t.1 = i then some t.2 else none) t = none := by
      intro hall
      exact hne (List.filterMap_eq_nil_iff.mpr hall)
    push_neg at this
    obtain ⟨t, ht, hnone⟩ := this
    refine ⟨t, ht, ?_⟩
    by_cases hti : t.1 = i
    · exact hti
    · exact absurd (by simp [hti]) hnone
  · rintro ⟨t, ht, rfl⟩
    have : t.2 ∈ pairsFor rows t.1 := by
      unfold pairsFor
      exact List.mem_filterMap.mpr ⟨t, ht, by simp⟩
    have hne : pairsFor rows t.1 ≠ [] := by
      intro he
      rw [he] at this
      cases this
    exact lastOfAux_ne_none _ none hne

theorem listenIter_master (out : List Char) (enum : List Int)
    (hwf : ∀ r ∈ dataRows out, rowOk r = true)
    (hmem : ∀ i, i ∈ enum ↔ i ∈ idsDiscovered (dataRows out)) :
    listenIter out enum = .ok (enum.filterMap (listenEntryFor (dataRows out))) := by
  obtain ⟨st', hscan, hstates, hecs, _⟩ :=
    listenScanAux_eq (dataRows out) hwf { states := [], exitcodes := [], job_ids := [] }
  simp only [dataRows] at hscan
  unfold listenIter
  show (match listenScanAux ((splitOnChar '\n' (rstripChar '\n' out)).drop 1)
      { states := [], exitcodes := [], job_ids := [] } with
    | Except.error e => Except.error e
    | Except.ok st => listenEmit st enum []) = _
  rw [hscan]
  show listenEmit st' enum [] = _
  have hst : ∀ i, lookupI i st'.states
      = (listenLastFor (dataRows out) i).map (fun p => p.1) := by
    intro i
    rw [hstates i]
    show lastOfAux ((none : Option (List Char × List Char)).map (fun p => p.1))
      ((pairsFor (dataRows out) i).map (fun p => p.1)) = _
    rw [lastOfAux_map]
    rfl
  have hec : ∀ i, lookupI i st'.exitcodes
      = (listenLastFor (dataRows out) i).map (fun p => p.2) := by
    intro i
    rw [hecs i]
    show lastOfAux ((none : Option (List Char × List Char)).map (fun p => p.2))
      ((pairsFor (dataRows out) i).map (fun p => p.2)) = _
    rw [lastOfAux_map]
    rfl
  have hnn : ∀ i ∈ enum, listenLastFor (dataRows out) i ≠ none := by
    intro i hi
    rw [listenLastFor_ne_none_iff]
    exact (mem_idsDiscovered (dataRows out) i).mp ((hmem i).mp hi)
  rw [listenEmit_eq st' (listenLastFor (dataRows out)) hst hec enum [] hnn]
  rfl

theorem listenEntryFor_eq_some {rows : List (List Char)} {i : Int}
    {v : Int × Status × List Char} (h : listenEntryFor rows i = some v) :
    ∃ state ec, v = (i, Status.FINISHED, ec) ∧
      listenLastFor rows i = some (state, ec) ∧ state ∉ run_states := by
  unfold listenEntryFor at h
  cases hl : listenLastFor rows i with
  | none => rw [hl] at h; cases h
  | some p =>
    obtain ⟨state, ec⟩ := p
    rw [hl] at h
    have h' : (if state ∈ run_states then none
        else some (i, Status.FINISHED, ec)) = some v := h
    by_cases hrun : state ∈ run_states
    · rw [if_pos hrun] at h'
      cases h'
    · rw [if_neg hrun] at h'
      exact ⟨state, ec, (Option.some.inj h').symm, rfl, hrun⟩

theorem filterMap_fst_sublist (g : Int → Option (Int × Status × List Char))
    (hg : ∀ i v, g i = some v → v.1 = i) :
    ∀ enum : List Int, ((enum.filterMap g).map (fun t => t.1)).Sublist enum := by
  intro enum
  induction enum with
  | nil => simp
  | cons i rest ih =>
    rw [List.filterMap_cons]
    cases hgi : g i with
    | none => exact ih.cons i
    | some v =>
      rw [List.map_cons, hg i v hgi]
      exact ih.cons₂ i

/-- C1: one Batched Listener iteration on a well-formed poll (every row
splits into identifier, state and exit code and every surviving
identifier is an integer literal), with the `job_ids` set iterated in any
order `enum` enumerating its elements, publishes a mapping that contains
exactly the surviving identifiers (rows whose identifier contains
`.batch` or `.extern` are discarded) whose last surviving row in scan
order carries a state outside the running set, each bound to status
`FINISHED` and that last row's exit code; identifiers whose recorded
state is `PENDING` or `RUNNING` produce no entry, and no identifier is
bound twice. -/
theorem listen_publishes_finished (out : List Char) (enum : List Int)
    (hwf : ∀ r ∈ dataRows out, rowOk r = true)
    (hperm : enum.Perm (idsDiscovered (dataRows out))) :
    ∃ res, listenIter out enum = .ok res ∧
      (∀ e ∈ res, e.2.1 = Status.FINISHED) ∧
      (∀ id ec, (id, Status.FINISHED, ec) ∈ res ↔
        ∃ state, listenLastFor (dataRows out) id = some (state, ec) ∧
          state ∉ run_states) ∧
      (res.map (fun t => t.1)).Nodup := by
  have hmem : ∀ i, i ∈ enum ↔ i ∈ idsDiscovered (dataRows out) := fun i => hperm.mem_iff
  refine ⟨enum.filterMap (listenEntryFor (dataRows out)),
    listenIter_master out enum hwf hmem, ?_, ?_, ?_⟩
  · intro e he
    obtain ⟨i, _, hgi⟩ := List.mem_filterMap.mp he
    obtain ⟨state, ec, rfl, _, _⟩ := listenEntryFor_eq_some hgi
    rfl
  · intro id ec
    constructor
    · intro h
      obtain ⟨i, _, hgi⟩ := List.mem_filterMap.mp h
      obtain ⟨state, ec', heq, hlast, hrun⟩ := listenEntryFor_eq_some hgi
      simp only [Prod.mk.injEq] at heq
      obtain ⟨rfl, -, rfl⟩ := heq
      exact ⟨state, hlast, hrun⟩
    · rintro ⟨state, hlast, hrun⟩
      apply List.mem_filterMap.mpr
      refine ⟨id, ?_, ?_⟩
      · rw [hmem id, mem_idsDiscovered]
        apply (listenLastFor_ne_none_iff _ _).mp
        rw [hlast]
        simp
      · unfold listenEntryFor
        rw [hlast]
        show (if state ∈ run_states then none else some (id, Status.FINISHED, ec)) = _
        rw [if_neg hrun]
  · have hsub := filterMap_fst_sublist (listenEntryFor (dataRows out))
      (fun i v h => by obtain ⟨s, e, rfl, -, -⟩ := listenEntryFor_eq_some h; rfl) enum
    exact List.Nodup.sublist hsub (hperm.nodup_iff.mpr (idsDiscovered_nodup _))

theorem listen_publishes_finished_witness :
    ∃ res, listenIter outListen [10, 11] = .ok res ∧
      (∀ e ∈ res, e.2.1 = Status.FINISHED) ∧
      (∀ id ec, (id, Status.FINISHED, ec) ∈ res ↔
        ∃ state, listenLastFor (dataRows outListen) id = some (state, ec) ∧
          state ∉ run_states) ∧
      (res.map (fun t => t.1)).Nodup :=
  listen_publishes_finished outListen [10, 11] (by decide) (List.Perm.refl _)

/-- C5 counterexample: in the poll `outTwo` the finished identifiers are
first discovered in the order 11, 2, yet iterating the unordered
`job_ids` set in the equally legitimate enumeration `[2, 11]` publishes
the mapping with insertion order 2, 11 — so the published insertion
order is not guaranteed to be the first-discovery order. -/
theorem listen_insertion_order_counterexample :
    idsDiscovered (dataRows outTwo) = [11, 2] ∧
    List.Perm [2, 11] (idsDiscovered (dataRows outTwo)) ∧
    listenIter outTwo [2, 11]
      = .ok [(2, Status.FINISHED, "0:0".data), (11, Status.FINISHED, "1:0".data)] ∧
    [(2 : Int), 11] ≠ [11, 2] :=
  ⟨rfl, List.Perm.swap 11 2 [], rfl, by decide⟩

/-- C5 (amended): the insertion order of the mapping published by one
Batched Listener iteration follows the iteration order of the unordered
`job_ids` set (restricted to the finished identifiers), not the order in
which finished identifiers were first discovered in the poll; Python
gives no guarantee which enumeration of the set is used. -/
theorem listen_order_follows_set_enumeration (out : List Char) (enum : List Int)
    (hwf : ∀ r ∈ dataRows out, rowOk r = true)
    (hperm : enum.Perm (idsDiscovered (dataRows out))) :
    listenIter out enum = .ok (enum.filterMap (listenEntryFor (dataRows out))) :=
  listenIter_master out enum hwf (fun _ => hperm.mem_iff)

theorem listen_order_follows_set_enumeration_witness :
    listenIter outTwo [2, 11]
      = .ok ([2, 11].filterMap (listenEntryFor (dataRows outTwo))) :=
  listen_order_follows_set_enumeration outTwo [2, 11] (by decide) (List.Perm.swap 11 2 [])

theorem status_state_cases (s : Slurm) (out : List Char) (st : Status) (s' : Slurm)
    (h : Slurm.status s out = .ok (st, s')) :
    (st = Status.RUNNING ∧ s' = s) ∨
    (st = Status.FINISHED ∧ ∃ ec, s' = { s with _exitcode := some ec }) := by
  unfold Slurm.status at h
  cases hge : Slurm._get_sacct_entry out with
  | error e =>
    rw [hge] at h
    cases h
  | ok v =>
    rw [hge] at h
    rcases v with _ | (_ | ⟨state, ec⟩)
    · have h' : (Except.ok (Status.RUNNING, s) : Except Unit (Status × Slurm))
          = Except.ok (st, s') := h
      simp only [Except.ok.injEq, Prod.mk.injEq] at h'
      exact Or.inl ⟨h'.1.symm, h'.2.symm⟩
    · have h' : (Except.error () : Except Unit (Status × Slurm)) = Except.ok (st, s') := h
      cases h'
    · have h' : (if state ∈ run_states then Except.ok (Status.RUNNING, s)
          else Except.ok (Status.FINISHED, { s with _exitcode := some ec }))
          = Except.ok (st, s') := h
      by_cases hrun : state ∈ run_states
      · rw [if_pos hrun] at h'
        simp only [Except.ok.injEq, Prod.mk.injEq] at h'
        exact Or.inl ⟨h'.1.symm, h'.2.symm⟩
      · rw [if_neg hrun] at h'
        simp only [Except.ok.injEq, Prod.mk.injEq] at h'
        exact Or.inr ⟨h'.1.symm, ec, h'.2.symm⟩

theorem submit_preserves_exitcode {s : Slurm} {out : List Char} {i : Int} {s2 : Slurm}
    (h : Slurm.submit s out = some (i, s2)) : s2._exitcode = s._exitcode := by
  unfold Slurm.submit at h
  cases hp : parseSubmitOutput out with
  | none =>
    rw [hp] at h
    cases h
  | some id =>
    rw [hp] at h
    have h' : (some (id, { s with _job_id := some id }) : Option (Int × Slurm))
        = some (i, s2) := h
    simp only [Option.some.injEq, Prod.mk.injEq] at h'
    rw [← h'.2]

theorem stepOp_submit (s : Slurm) (g : Bool) (out : List Char) :
    stepOp s g (Op.submitOp out) =
      match Slurm.submit s out with
      | none => .error ()
      | some (_, s2) => .ok (s2, g) := rfl

theorem stepOp_status (s : Slurm) (g : Bool) (out : List Char) :
    stepOp s g (Op.statusOp out) =
      match Slurm.status s out with
      | .error e => .error e
      | .ok (st, s2) => .ok (s2, g || finFlag st) := rfl

theorem stepOp_exitcode (s : Slurm) (g : Bool) (out : List Char) :
    stepOp s g (Op.exitcodeOp out) =
      match s._exitcode with
      | some _ => .ok (s, g)
      | none =>
        match Slurm.status s out with
        | .error e => .error e
        | .ok (st, s2) => .ok (s2, g || finFlag st) := rfl

theorem stepOp_preserves (s : Slurm) (g : Bool) (op : Op) (s' : Slurm) (g' : Bool)
    (h : stepOp s g op = .ok (s', g'))
    (hinv : s._exitcode.isSome = g) : s'._exitcode.isSome = g' := by
  cases op with
  | submitOp out =>
    rw [stepOp_submit] at h
    cases hsub : Slurm.submit s out with
    | none =>
      rw [hsub] at h
      cases h
    | some p =>
      obtain ⟨i, s2⟩ := p
      rw [hsub] at h
      have h' : (Except.ok (s2, g) : Except Unit (Slurm × Bool)) = Except.ok (s', g') := h
      simp only [Except.ok.injEq, Prod.mk.injEq] at h'
      obtain ⟨rfl, rfl⟩ := h'
      rw [submit_preserves_exitcode hsub]
      exact hinv
  | statusOp out =>
    rw [stepOp_status] at h
    cases hs : Slurm.status s out with
    | error e =>
      rw [hs] at h
      cases h
    | ok p =>
      obtain ⟨st, s2⟩ := p
      rw [hs] at h
      have h' : (Except.ok (s2, g || finFlag st)
          : Except Unit (Slurm × Bool)) = Except.ok (s', g') := h
      simp only [Except.ok.injEq, Prod.mk.injEq] at h'
      obtain ⟨rfl, rfl⟩ := h'
      rcases status_state_cases s out st s2 hs with ⟨rfl, rfl⟩ | ⟨rfl, ec, rfl⟩
      · simpa [finFlag] using hinv
      · simp [finFlag]
  | exitcodeOp out =>
    rw [stepOp_exitcode] at h
    cases he : s._exitcode with
    | some e =>
      rw [he] at h
      have h' : (Except.ok (s, g) : Except Unit (Slurm × Bool)) = Except.ok (s', g') := h
      simp only [Except.ok.injEq, Prod.mk.injEq] at h'
      obtain ⟨rfl, rfl⟩ := h'
      exact hinv
    | none =>
      rw [he] at h
      cases hs : Slurm.status s out with
      | error e =>
        rw [hs] at h
        cases h
      | ok p =>
        obtain ⟨st, s2⟩ := p
        rw [hs] at h
        have h' : (Except.ok (s2, g || finFlag st)
            : Except Unit (Slurm × Bool)) = Except.ok (s', g') := h
        simp only [Except.ok.injEq, Prod.mk.injEq] at h'
        obtain ⟨rfl, rfl⟩ := h'
        rcases status_state_cases s out st s2 hs with ⟨rfl, rfl⟩ | ⟨rfl, ec, rfl⟩
        · simpa [finFlag] using hinv
        · simp [finFlag]
  | cancelOp =>
    have h' : (Except.ok (s, g) : Except Unit (Slurm × Bool)) = Except.ok (s', g') := h
    simp only [Except.ok.injEq, Prod.mk.injEq] at h'
    obtain ⟨rfl, rfl⟩ := h'
    exact hinv

theorem runOps_cons (s : Slurm) (g : Bool) (op : Op) (ops : List Op) :
    runOps (s, g) (op :: ops) =
      match stepOp s g op with
      | .error e => .error e
      | .ok sg' => runOps sg' ops := rfl

theorem runOps_preserves : ∀ (ops : List Op) (s : Slurm) (g : Bool) (s' : Slurm) (g' : Bool),
    runOps (s, g) ops = .ok (s', g') → s._exitcode.isSome = g →
    s'._exitcode.isSome = g' := by
  intro ops
  induction ops with
  | nil =>
    intro s g s' g' h hinv
    have h' : (Except.ok (s, g) : Except Unit (Slurm × Bool)) = Except.ok (s', g') := h
    simp only [Except.ok.injEq, Prod.mk.injEq] at h'
    obtain ⟨rfl, rfl⟩ := h'
    exact hinv
  | cons op rest ih =>
    intro s g s' g' h hinv
    rw [runOps_cons] at h
    cases hstep : stepOp s g op with
    | error e =>
      rw [hstep] at h
      cases h
    | ok sg2 =>
      obtain ⟨s2, g2⟩ := sg2
      rw [hstep] at h
      exact ih s2 g2 s' g' h (stepOp_preserves s g op s2 g2 hstep hinv)

/-- C9: starting from a freshly constructed handle, any sequence of
submit, status, exitcode and cancel operations that completes without an
unhandled exception leaves the stored exit code set exactly when some
`status` evaluation (direct, or nested inside `exitcode`) has returned
`FINISHED` — the ghost flag threaded through `runOps` records precisely
that event. -/
theorem exitcode_set_iff_finished (name log run_script : Option (List Char))
    (run_args : RunArgs)
    (partition exclude clusters qos mem time export_ : Option (List Char))
    (ops : List Op) (s : Slurm) (g : Bool)
    (h : runOps (initSlurm name log run_script run_args partition exclude clusters
        qos mem time export_, false) ops = .ok (s, g)) :
    s._exitcode.isSome = g :=
  runOps_preserves ops _ false s g h rfl

theorem exitcode_set_iff_finished_witness :
    runOps (slurmDefault, false) [Op.statusOp outDone]
      = .ok ({ slurmDefault with _exitcode := some "0:0".data }, true) ∧
    ({ slurmDefault with _exitcode := some "0:0".data })._exitcode.isSome = true :=
  ⟨rfl, exitcode_set_iff_finished none none none RunArgs.noArgs none none none none
    none none none [Op.statusOp outDone]
    { slurmDefault with _exitcode := some "0:0".data } true rfl⟩
